import Mathlib

/-!
Verification development for the snippet-viewer widget library
(src/snippet-viewer.js and the near-duplicate iteration src/unnamed/part_000;
the fetch-coordination, cache and state-machine logic is identical in both).

The JavaScript core is shallowly embedded:
* the two process-wide `Map`s (`snippetCache`, `pendingRequests`) become
  association lists with first-match lookup (`Map.set` = cons, which shadows
  any older binding exactly like `Map.set` overwrites; `Map.delete` = filter);
* the synchronous section of `fetchSnippets` (cache check, pending check,
  creation of the fetch promise, issuing the network request, registering the
  pending entry) runs without any intervening `await`, so it is modelled as
  one atomic transition `fetchStart`;
* settlement of an in-flight fetch promise is a separate transition:
  `settleSuccess` models the success continuation
  (`snippetCache.set(url, data); pendingRequests.delete(url); return data`)
  and `settleFailure` models a throw out of the async function, which runs no
  cleanup code at all;
* the remaining, purely synchronous pieces (snippet-key parsing, language
  lookup, viewer error rendering, provider broadcast) are embedded directly
  as pure functions.
-/

/-- A parsed snippets.json body: snippet key to source code. -/
abbrev Mapping := List (String × String)

/-- Failure of one resolution attempt: a non-success HTTP response
(`throw new Error(\x7bHTTP $\x7bresponse.status\x7d: $\x7bresponse.statusText\x7d\x7d)`)
or a transport/parse error carrying its own message. -/
inductive ErrorV where
  | http (status : Nat) (statusText : String)
  | transport (msg : String)
deriving DecidableEq

/-- The `error.message` string observed by callers. -/
def ErrorV.message : ErrorV → String
  | .http status statusText => "HTTP " ++ toString status ++ ": " ++ statusText
  | .transport msg => msg

/-- First-match association lookup, the observable behaviour of
`Map.get` on our cons/filter representation of a JavaScript `Map`. -/
def alookup {κ α : Type} [DecidableEq κ] (k : κ) : List (κ × α) → Option α
  | [] => none
  | (k₂, v) :: t => if k₂ = k then some v else alookup k t

/-- `host.replace(/\/$/, "")`: the regex removes a single trailing slash. -/
def stripSlash (l : List Char) : List Char :=
  match l.getLast? with
  | some '/' => l.dropLast
  | _ => l

/-- The ResourceURL built by both `fetchSnippets` and `prefetch`:
`$\x7bhost.replace(/\/$/, "")\x7d/snippets.json`. -/
def normalizeUrl (host : String) : String :=
  ⟨stripSlash host.data ++ "/snippets.json".data⟩

instance {ε α : Type} [DecidableEq ε] [DecidableEq α] : DecidableEq (Except ε α) :=
  fun a b =>
    match a, b with
    | .ok x, .ok y => decidable_of_iff (x = y) (by simp)
    | .error x, .error y => decidable_of_iff (x = y) (by simp)
    | .ok _, .error _ => isFalse (by simp)
    | .error _, .ok _ => isFalse (by simp)

/-- The process-wide coordination state, plus history needed to state the
claims: `requests` logs every network request ever issued (newest first) and
`settled` records the final outcome of every fetch promise that has settled.
`inFlight` holds the operations whose promise has not settled yet, each with
the URL its closure captured. -/
structure CoordState where
  cache : List (String × Mapping)
  pending : List (String × Nat)
  inFlight : List (Nat × String)
  requests : List (Nat × String)
  settled : List (Nat × Except ErrorV Mapping)
  nextOp : Nat
deriving DecidableEq

/-- Both stores start empty ("initialized empty at startup"). -/
def initState : CoordState :=
  { cache := [], pending := [], inFlight := [], requests := [], settled := [], nextOp := 0 }

/-- What one call to `fetchSnippets` observes synchronously. -/
inductive FetchResult where
  | cached (m : Mapping)
  | joined (op : Nat)
  | started (op : Nat)
deriving DecidableEq

/-- The synchronous section of `SnippetViewer.fetchSnippets(host)` (the
identical logic is inlined in `SnippetProvider.prefetch`): normalize the URL;
return the cached mapping if present; else join the pending operation if one
exists; else create a fresh operation, issue its network request and register
it in `pendingRequests`. No `await` separates these steps, so they form one
atomic transition of the single-threaded model. -/
def fetchStart (s : CoordState) (host : String) : CoordState × FetchResult :=
  let url := normalizeUrl host
  match alookup url s.cache with
  | some m => (s, .cached m)
  | none =>
    match alookup url s.pending with
    | some op => (s, .joined op)
    | none =>
      ({ cache := s.cache
         pending := (url, s.nextOp) :: s.pending
         inFlight := (s.nextOp, url) :: s.inFlight
         requests := (s.nextOp, url) :: s.requests
         settled := s.settled
         nextOp := s.nextOp + 1 }, .started s.nextOp)

/-- The success continuation of the fetch promise for operation `op` on `url`:
`snippetCache.set(url, data); pendingRequests.delete(url); return data`. -/
def settleSuccess (s : CoordState) (op : Nat) (url : String) (m : Mapping) : CoordState :=
  { s with cache := (url, m) :: s.cache
           pending := s.pending.filter (fun p => p.1 ≠ url)
           inFlight := s.inFlight.filter (fun p => p.1 ≠ op)
           settled := (op, Except.ok m) :: s.settled }

/-- Settlement of the fetch promise for `op` by a throw (non-ok status or
transport/parse failure): the promise rejects and NO cleanup runs — in
particular `pendingRequests.delete(url)` is never executed on this path. -/
def settleFailure (s : CoordState) (op : Nat) (e : ErrorV) : CoordState :=
  { s with inFlight := s.inFlight.filter (fun p => p.1 ≠ op)
           settled := (op, Except.error e) :: s.settled }

/-- One transition of the single-threaded interleaving model: either some
caller runs the synchronous section of `fetchSnippets`, or an in-flight fetch
promise settles (with success or failure). -/
inductive Step : CoordState → CoordState → Prop
  | fetch (s : CoordState) (host : String) : Step s (fetchStart s host).1
  | ok (s : CoordState) (op : Nat) (url : String) (m : Mapping)
      (h : (op, url) ∈ s.inFlight) : Step s (settleSuccess s op url m)
  | err (s : CoordState) (op : Nat) (url : String) (e : ErrorV)
      (h : (op, url) ∈ s.inFlight) : Step s (settleFailure s op e)

/-- States reachable from `s` by any number of transitions. -/
def ReachFrom (s s₂ : CoordState) : Prop := Relation.ReflTransGen Step s s₂

/-- States reachable from the empty startup state. -/
def Reachable (s : CoordState) : Prop := ReachFrom initState s

/-- Number of network requests ever issued for `url`. -/
def requestCount (url : String) (s : CoordState) : Nat :=
  (s.requests.filter (fun p => p.2 = url)).length

/-! ### Association-list lemmas -/

theorem alookup_eq_none_iff {κ α : Type} [DecidableEq κ] {k : κ} {l : List (κ × α)} :
    alookup k l = none ↔ k ∉ l.map Prod.fst := by
  induction l with
  | nil => simp [alookup]
  | cons p t ih =>
    obtain ⟨k₂, v₂⟩ := p
    by_cases h : k₂ = k
    · subst h
      simp [alookup]
    · simp [alookup, h, ih, Ne.symm h]

theorem mem_of_alookup_some {κ α : Type} [DecidableEq κ] {k : κ} {v : α} {l : List (κ × α)}
    (h : alookup k l = some v) : (k, v) ∈ l := by
  induction l with
  | nil => simp [alookup] at h
  | cons p t ih =>
    obtain ⟨k₂, v₂⟩ := p
    by_cases h₂ : k₂ = k
    · subst h₂
      simp [alookup] at h
      simp [h]
    · simp [alookup, h₂] at h
      exact List.mem_cons_of_mem _ (ih h)

theorem alookup_filterKey_self {κ α : Type} [DecidableEq κ] (k : κ) (l : List (κ × α)) :
    alookup k (l.filter (fun p => p.1 ≠ k)) = none := by
  induction l with
  | nil => rfl
  | cons p t ih =>
    obtain ⟨k₂, v₂⟩ := p
    by_cases h : k₂ = k
    · simpa [List.filter_cons, h] using ih
    · simpa [List.filter_cons, h, alookup] using ih

theorem alookup_filterKey_ne {κ α : Type} [DecidableEq κ] {k u : κ} (h : k ≠ u)
    (l : List (κ × α)) :
    alookup k (l.filter (fun p => p.1 ≠ u)) = alookup k l := by
  induction l with
  | nil => rfl
  | cons p t ih =>
    obtain ⟨k₂, v₂⟩ := p
    by_cases h₂ : k₂ = u
    · subst h₂
      have h₃ : k₂ ≠ k := fun h₄ => h (h₄ ▸ rfl)
      simpa [List.filter_cons, alookup, h₃] using ih
    · by_cases h₃ : k₂ = k
      · subst h₃
        simp [List.filter_cons, h₂, alookup]
      · simpa [List.filter_cons, alookup, h₂, h₃] using ih

/-! ### The inductive invariant of the coordination state -/

/-- Invariant of the process-wide state, established at startup and preserved
by every transition. `pendingNodup` is the at-most-one-PendingOperation-per-URL
property; `flightPending` says every unsettled operation is registered in the
pending table under its URL; `pendingFreshCache` says a URL with a pending
entry has no cache entry yet; `settledNotFlight` says a settled operation is
no longer in flight; the counter bounds give freshness of new operation ids. -/
structure CoordInv (s : CoordState) : Prop where
  pendingNodup : (s.pending.map Prod.fst).Nodup
  flightPending : ∀ op url, (op, url) ∈ s.inFlight → alookup url s.pending = some op
  pendingFreshCache : ∀ url op, (url, op) ∈ s.pending → alookup url s.cache = none
  settledNotFlight : ∀ op o url, (op, o) ∈ s.settled → (op, url) ∉ s.inFlight
  settledNodup : (s.settled.map Prod.fst).Nodup
  flightLt : ∀ op url, (op, url) ∈ s.inFlight → op < s.nextOp
  settledLt : ∀ op o, (op, o) ∈ s.settled → op < s.nextOp

theorem coordInv_initState : CoordInv initState := by
  constructor <;> simp [initState]

/-- On a cache hit `fetchSnippets` returns the cached mapping at once and
changes nothing. -/
theorem fetchStart_hit {s : CoordState} {host : String} {m : Mapping}
    (h : alookup (normalizeUrl host) s.cache = some m) :
    fetchStart s host = (s, .cached m) := by
  unfold fetchStart
  simp [h]

/-- With no cache entry but a pending operation, `fetchSnippets` joins that
operation and changes nothing. -/
theorem fetchStart_join {s : CoordState} {host : String} {op : Nat}
    (hc : alookup (normalizeUrl host) s.cache = none)
    (hp : alookup (normalizeUrl host) s.pending = some op) :
    fetchStart s host = (s, .joined op) := by
  unfold fetchStart
  simp [hc, hp]

/-- With neither a cache entry nor a pending operation, `fetchSnippets`
creates a fresh operation, issues its network request and registers it. -/
theorem fetchStart_fresh {s : CoordState} {host : String}
    (hc : alookup (normalizeUrl host) s.cache = none)
    (hp : alookup (normalizeUrl host) s.pending = none) :
    fetchStart s host =
      ({ cache := s.cache
         pending := (normalizeUrl host, s.nextOp) :: s.pending
         inFlight := (s.nextOp, normalizeUrl host) :: s.inFlight
         requests := (s.nextOp, normalizeUrl host) :: s.requests
         settled := s.settled
         nextOp := s.nextOp + 1 }, .started s.nextOp) := by
  unfold fetchStart
  simp [hc, hp]

/-- `fetchStart` never touches the cache. -/
theorem fetchStart_cache (s : CoordState) (host : String) :
    ((fetchStart s host).1).cache = s.cache := by
  cases hc : alookup (normalizeUrl host) s.cache with
  | some m => rw [fetchStart_hit hc]
  | none =>
    cases hp : alookup (normalizeUrl host) s.pending with
    | some op => rw [fetchStart_join hc hp]
    | none => rw [fetchStart_fresh hc hp]

/-- `fetchStart` never touches the settlement log. -/
theorem fetchStart_settled (s : CoordState) (host : String) :
    ((fetchStart s host).1).settled = s.settled := by
  cases hc : alookup (normalizeUrl host) s.cache with
  | some m => rw [fetchStart_hit hc]
  | none =>
    cases hp : alookup (normalizeUrl host) s.pending with
    | some op => rw [fetchStart_join hc hp]
    | none => rw [fetchStart_fresh hc hp]

/-- Every transition preserves the coordination invariant. -/
theorem step_inv {s s₂ : CoordState} (hs : CoordInv s) (h : Step s s₂) : CoordInv s₂ := by
  cases h with
  | fetch host =>
    cases hc : alookup (normalizeUrl host) s.cache with
    | some m =>
      rw [fetchStart_hit hc]
      exact hs
    | none =>
      cases hp : alookup (normalizeUrl host) s.pending with
      | some op =>
        rw [fetchStart_join hc hp]
        exact hs
      | none =>
        rw [fetchStart_fresh hc hp]
        dsimp only
        refine ⟨?_, ?_, ?_, ?_, ?_, ?_, ?_⟩
        · simp only [List.map_cons, List.nodup_cons]
          exact ⟨alookup_eq_none_iff.mp hp, hs.pendingNodup⟩
        · intro op₂ url₂ hmem
          rcases List.mem_cons.mp hmem with heq | htail
          · obtain ⟨h₁, h₂⟩ := Prod.mk.injEq .. ▸ heq
            subst h₁
            subst h₂
            simp [alookup]
          · have h₂ := hs.flightPending op₂ url₂ htail
            have hne : normalizeUrl host ≠ url₂ := by
              intro hurl
              rw [← hurl] at h₂
              rw [hp] at h₂
              exact Option.noConfusion h₂
            simpa [alookup, hne] using h₂
        · intro url₂ op₂ hmem
          rcases List.mem_cons.mp hmem with heq | htail
          · obtain ⟨h₁, h₂⟩ := Prod.mk.injEq .. ▸ heq
            subst h₁
            exact hc
          · exact hs.pendingFreshCache url₂ op₂ htail
        · intro op₂ o url₂ hmem
          have hlt := hs.settledLt op₂ o hmem
          intro hmem₂
          rcases List.mem_cons.mp hmem₂ with heq | htail
          · obtain ⟨h₁, h₂⟩ := Prod.mk.injEq .. ▸ heq
            omega
          · exact hs.settledNotFlight op₂ o url₂ hmem htail
        · exact hs.settledNodup
        · intro op₂ url₂ hmem
          rcases List.mem_cons.mp hmem with heq | htail
          · obtain ⟨h₁, h₂⟩ := Prod.mk.injEq .. ▸ heq
            subst h₁
            exact Nat.lt_succ_self _
          · exact Nat.lt_succ_of_lt (hs.flightLt op₂ url₂ htail)
        · intro op₂ o hmem
          exact Nat.lt_succ_of_lt (hs.settledLt op₂ o hmem)
  | ok op url m hmem =>
    have hpend : alookup url s.pending = some op := hs.flightPending op url hmem
    have hcache : alookup url s.cache = none :=
      hs.pendingFreshCache url op (mem_of_alookup_some hpend)
    refine ⟨?_, ?_, ?_, ?_, ?_, ?_, ?_⟩
    · exact ((List.filter_sublist _).map _).nodup hs.pendingNodup
    · intro op₂ url₂ hmem₂
      simp only [settleSuccess, List.mem_filter, decide_eq_true_eq] at hmem₂
      obtain ⟨hmem₃, hne⟩ := hmem₂
      have h₂ := hs.flightPending op₂ url₂ hmem₃
      have hne₂ : url₂ ≠ url := by
        intro hurl
        subst hurl
        rw [hpend] at h₂
        exact hne (Option.some.injEq .. ▸ h₂).symm
      show alookup url₂ (s.pending.filter (fun p => p.1 ≠ url)) = some op₂
      rw [alookup_filterKey_ne hne₂]
      exact h₂
    · intro url₂ op₂ hmem₂
      simp only [settleSuccess, List.mem_filter, decide_eq_true_eq] at hmem₂
      obtain ⟨hmem₃, hne⟩ := hmem₂
      have hne₂ : url ≠ url₂ := fun h₂ => hne h₂.symm
      simpa [settleSuccess, alookup, hne₂] using hs.pendingFreshCache url₂ op₂ hmem₃
    · intro op₂ o url₂ hmem₂
      simp only [settleSuccess, List.mem_cons] at hmem₂
      simp only [settleSuccess, List.mem_filter, decide_eq_true_eq]
      rcases hmem₂ with heq | htail
      · obtain ⟨h₁, h₂⟩ := Prod.mk.injEq .. ▸ heq
        subst h₁
        rintro ⟨-, h₃⟩
        exact h₃ rfl
      · rintro ⟨h₃, -⟩
        exact hs.settledNotFlight op₂ o url₂ htail h₃
    · simp only [settleSuccess, List.map_cons, List.nodup_cons]
      constructor
      · intro hcontra
        obtain ⟨⟨op₃, o₃⟩, hmem₃, hfst⟩ := List.mem_map.mp hcontra
        have hop : op₃ = op := hfst
        subst hop
        exact hs.settledNotFlight op₃ o₃ url hmem₃ hmem
      · exact hs.settledNodup
    · intro op₂ url₂ hmem₂
      simp only [settleSuccess, List.mem_filter, decide_eq_true_eq] at hmem₂
      exact hs.flightLt op₂ url₂ hmem₂.1
    · intro op₂ o hmem₂
      simp only [settleSuccess, List.mem_cons] at hmem₂
      rcases hmem₂ with heq | htail
      · obtain ⟨h₁, h₂⟩ := Prod.mk.injEq .. ▸ heq
        subst h₁
        exact hs.flightLt op₂ url hmem
      · exact hs.settledLt op₂ o htail
  | err op url e hmem =>
    refine ⟨hs.pendingNodup, ?_, hs.pendingFreshCache, ?_, ?_, ?_, ?_⟩
    · intro op₂ url₂ hmem₂
      simp only [settleFailure, List.mem_filter, decide_eq_true_eq] at hmem₂
      exact hs.flightPending op₂ url₂ hmem₂.1
    · intro op₂ o url₂ hmem₂
      simp only [settleFailure, List.mem_cons] at hmem₂
      simp only [settleFailure, List.mem_filter, decide_eq_true_eq]
      rcases hmem₂ with heq | htail
      · obtain ⟨h₁, h₂⟩ := Prod.mk.injEq .. ▸ heq
        subst h₁
        rintro ⟨-, h₃⟩
        exact h₃ rfl
      · rintro ⟨h₃, -⟩
        exact hs.settledNotFlight op₂ o url₂ htail h₃
    · simp only [settleFailure, List.map_cons, List.nodup_cons]
      constructor
      · intro hcontra
        obtain ⟨⟨op₃, o₃⟩, hmem₃, hfst⟩ := List.mem_map.mp hcontra
        have hop : op₃ = op := hfst
        subst hop
        exact hs.settledNotFlight op₃ o₃ url hmem₃ hmem
      · exact hs.settledNodup
    · intro op₂ url₂ hmem₂
      simp only [settleFailure, List.mem_filter, decide_eq_true_eq] at hmem₂
      exact hs.flightLt op₂ url₂ hmem₂.1
    · intro op₂ o hmem₂
      simp only [settleFailure, List.mem_cons] at hmem₂
      rcases hmem₂ with heq | htail
      · obtain ⟨h₁, h₂⟩ := Prod.mk.injEq .. ▸ heq
        subst h₁
        exact hs.flightLt op₂ url hmem
      · exact hs.settledLt op₂ o htail

/-- The invariant holds along every execution. -/
theorem reach_inv {s s₂ : CoordState} (hs : CoordInv s) (h : ReachFrom s s₂) : CoordInv s₂ := by
  induction h with
  | refl => exact hs
  | tail h₁ h₂ ih => exact step_inv ih h₂

/-- Every reachable state satisfies the coordination invariant. -/
theorem reachable_inv {s : CoordState} (h : Reachable s) : CoordInv s :=
  reach_inv coordInv_initState h

/-- An existing pending entry survives any later `fetchSnippets` call. -/
theorem fetchStart_pending_lookup {s : CoordState} {url : String} {op : Nat}
    (h : alookup url s.pending = some op) (host : String) :
    alookup url ((fetchStart s host).1).pending = some op := by
  cases hc : alookup (normalizeUrl host) s.cache with
  | some m =>
    rw [fetchStart_hit hc]
    exact h
  | none =>
    cases hp : alookup (normalizeUrl host) s.pending with
    | some op₂ =>
      rw [fetchStart_join hc hp]
      exact h
    | none =>
      rw [fetchStart_fresh hc hp]
      have hne : normalizeUrl host ≠ url := by
        intro he
        rw [he, h] at hp
        exact Option.noConfusion hp
      dsimp only
      simpa [alookup, hne] using h

/-- A cache entry survives one transition unchanged. -/
theorem step_cache_mono {s s₂ : CoordState} (hs : CoordInv s) (h : Step s s₂)
    {url : String} {m : Mapping} (hc : alookup url s.cache = some m) :
    alookup url s₂.cache = some m := by
  cases h with
  | fetch host =>
    rw [fetchStart_cache]
    exact hc
  | ok op url₂ m₂ hmem =>
    have hpend := hs.flightPending op url₂ hmem
    have hnone := hs.pendingFreshCache url₂ op (mem_of_alookup_some hpend)
    have hne : url₂ ≠ url := by
      intro he
      rw [he, hc] at hnone
      exact Option.noConfusion hnone
    show alookup url ((url₂, m₂) :: s.cache) = some m
    simpa [alookup, hne] using hc
  | err op url₂ e hmem => exact hc

/-- A cache entry survives any execution unchanged (write-once monotonicity). -/
theorem reach_cache_mono {s s₂ : CoordState} (hs : CoordInv s) (h : ReachFrom s s₂)
    {url : String} {m : Mapping} (hc : alookup url s.cache = some m) :
    alookup url s₂.cache = some m := by
  induction h with
  | refl => exact hc
  | tail h₁ h₂ ih => exact step_cache_mono (reach_inv hs h₁) h₂ ih

/-- A settled outcome is recorded forever and never changes. -/
theorem step_settled_mono {s s₂ : CoordState} (hs : CoordInv s) (h : Step s s₂)
    {op : Nat} {o : Except ErrorV Mapping} (ho : alookup op s.settled = some o) :
    alookup op s₂.settled = some o := by
  cases h with
  | fetch host =>
    rw [fetchStart_settled]
    exact ho
  | ok op₂ url₂ m₂ hmem =>
    have hne : op₂ ≠ op := by
      intro he
      subst he
      exact hs.settledNotFlight op₂ o url₂ (mem_of_alookup_some ho) hmem
    show alookup op ((op₂, Except.ok m₂) :: s.settled) = some o
    simpa [alookup, hne] using ho
  | err op₂ url₂ e hmem =>
    have hne : op₂ ≠ op := by
      intro he
      subst he
      exact hs.settledNotFlight op₂ o url₂ (mem_of_alookup_some ho) hmem
    show alookup op ((op₂, Except.error e) :: s.settled) = some o
    simpa [alookup, hne] using ho

/-- The pending entry of an already-settled operation survives one transition:
only `settleSuccess` ever deletes from the pending table, and it only deletes
the entry of the operation that is settling. -/
theorem step_pending_settled {s s₂ : CoordState} (hs : CoordInv s) (h : Step s s₂)
    {url : String} {op : Nat} (hp : alookup url s.pending = some op)
    {o : Except ErrorV Mapping} (ho : alookup op s.settled = some o) :
    alookup url s₂.pending = some op := by
  cases h with
  | fetch host => exact fetchStart_pending_lookup hp host
  | ok op₂ url₂ m₂ hmem =>
    have hne : url₂ ≠ url := by
      intro he
      subst he
      have h₂ := hs.flightPending op₂ url₂ hmem
      rw [hp] at h₂
      have h₃ : op = op₂ := Option.some.inj h₂
      subst h₃
      exact hs.settledNotFlight op o url₂ (mem_of_alookup_some ho) hmem
    show alookup url (s.pending.filter (fun p => p.1 ≠ url₂)) = some op
    rw [alookup_filterKey_ne (fun he => hne he.symm)]
    exact hp
  | err op₂ url₂ e hmem => exact hp

/-- Both parts of the settled-but-still-pending configuration persist along
any execution. -/
theorem reach_pending_settled {s s₂ : CoordState} (hs : CoordInv s) (h : ReachFrom s s₂)
    {url : String} {op : Nat} {o : Except ErrorV Mapping}
    (hp : alookup url s.pending = some op) (ho : alookup op s.settled = some o) :
    alookup url s₂.pending = some op ∧ alookup op s₂.settled = some o := by
  induction h with
  | refl => exact ⟨hp, ho⟩
  | tail h₁ h₂ ih =>
    obtain ⟨ih₁, ih₂⟩ := ih
    have hinv := reach_inv hs h₁
    exact ⟨step_pending_settled hinv h₂ ih₁ ih₂, step_settled_mono hinv h₂ ih₂⟩

/-- `n` back-to-back calls to the synchronous section of `fetchSnippets` for
the same host, with no settlement in between — the model of N callers that
all start before the first one settles. -/
def fetchStartIter (host : String) : Nat → CoordState → CoordState × List FetchResult
  | 0, s => (s, [])
  | n + 1, s =>
    let r := fetchStart s host
    let r₂ := fetchStartIter host n r.1
    (r₂.1, r.2 :: r₂.2)

/-- While a pending operation exists (and the cache has no entry), every
further call joins it and the state does not change at all. -/
theorem fetchStartIter_join {s : CoordState} {host : String} {op : Nat} (n : Nat)
    (hc : alookup (normalizeUrl host) s.cache = none)
    (hp : alookup (normalizeUrl host) s.pending = some op) :
    fetchStartIter host n s = (s, List.replicate n (FetchResult.joined op)) := by
  induction n with
  | zero => rfl
  | succ n ih =>
    simp [fetchStartIter, fetchStart_join hc hp, ih, List.replicate_succ]

/-! ### Claims C1, C2, C3, C10 -/

/-- C1 (single-flight): from any reachable state with neither a cache entry
nor a pending operation for the normalized host, N = n + 1 concurrent calls
to resolve for that host, all started before the first one settles, issue
exactly one network request; the first call starts the operation and every
later caller joins (awaits) that same operation, leaving the state untouched;
and in every reachable state at most one PendingOperation exists per
ResourceURL. -/
theorem c1_single_flight (s : CoordState) (hreach : Reachable s) (host : String) (n : Nat)
    (hc : alookup (normalizeUrl host) s.cache = none)
    (hp : alookup (normalizeUrl host) s.pending = none) :
    (fetchStartIter host (n + 1) s).2 =
        FetchResult.started s.nextOp :: List.replicate n (FetchResult.joined s.nextOp) ∧
    requestCount (normalizeUrl host) (fetchStartIter host (n + 1) s).1 =
        requestCount (normalizeUrl host) s + 1 ∧
    alookup (normalizeUrl host) ((fetchStartIter host (n + 1) s).1).pending = some s.nextOp ∧
    Reachable (fetchStartIter host (n + 1) s).1 ∧
    (∀ t : CoordState, Reachable t → (t.pending.map Prod.fst).Nodup) := by
  have hfresh := fetchStart_fresh hc hp
  have hstate : (fetchStart s host).1 =
      { cache := s.cache
        pending := (normalizeUrl host, s.nextOp) :: s.pending
        inFlight := (s.nextOp, normalizeUrl host) :: s.inFlight
        requests := (s.nextOp, normalizeUrl host) :: s.requests
        settled := s.settled
        nextOp := s.nextOp + 1 } := by
    rw [hfresh]
  have hres : (fetchStart s host).2 = FetchResult.started s.nextOp := by
    rw [hfresh]
  have hc₁ : alookup (normalizeUrl host) ((fetchStart s host).1).cache = none := by
    rw [fetchStart_cache]
    exact hc
  have hp₁ : alookup (normalizeUrl host) ((fetchStart s host).1).pending = some s.nextOp := by
    rw [hstate]
    simp [alookup]
  have hiter := fetchStartIter_join n hc₁ hp₁
  have hunfold : fetchStartIter host (n + 1) s =
      ((fetchStartIter host n (fetchStart s host).1).1,
       (fetchStart s host).2 :: (fetchStartIter host n (fetchStart s host).1).2) := rfl
  rw [hunfold, hiter, hres]
  refine ⟨rfl, ?_, hp₁, ?_, fun t ht => (reachable_inv ht).pendingNodup⟩
  · show requestCount (normalizeUrl host) (fetchStart s host).1 =
        requestCount (normalizeUrl host) s + 1
    rw [hstate]
    simp [requestCount, List.filter_cons]
  · show Reachable (fetchStart s host).1
    exact Relation.ReflTransGen.tail hreach (Step.fetch s host)

/-- C1 witness: three concurrent resolutions of host "h" from the startup
state issue one request and all share operation 0. -/
theorem c1_single_flight_witness :
    (alookup (normalizeUrl "h") initState.cache = none ∧
     alookup (normalizeUrl "h") initState.pending = none) ∧
    ((fetchStartIter "h" 3 initState).2 =
        FetchResult.started 0 :: List.replicate 2 (FetchResult.joined 0) ∧
     requestCount (normalizeUrl "h") (fetchStartIter "h" 3 initState).1 =
        requestCount (normalizeUrl "h") initState + 1 ∧
     alookup (normalizeUrl "h") ((fetchStartIter "h" 3 initState).1).pending = some 0 ∧
     Reachable (fetchStartIter "h" 3 initState).1 ∧
     (∀ t : CoordState, Reachable t → (t.pending.map Prod.fst).Nodup)) :=
  ⟨⟨by decide, by decide⟩,
   c1_single_flight initState Relation.ReflTransGen.refl "h" 2 (by decide) (by decide)⟩

/-- C2 counterexample: operation 0 for host "h" is started from the startup
state and settles with failure (HTTP 404); its PendingOperation is NOT removed
from the pending table — the state reached is a real execution state and still
maps the URL to operation 0. -/
theorem c2_counterexample :
    alookup "h/snippets.json"
        ((settleFailure (fetchStart initState "h").1 0 (ErrorV.http 404 "Not Found")).pending) =
      some 0 ∧
    ¬ alookup "h/snippets.json"
        ((settleFailure (fetchStart initState "h").1 0 (ErrorV.http 404 "Not Found")).pending) =
      none ∧
    Reachable (settleFailure (fetchStart initState "h").1 0 (ErrorV.http 404 "Not Found")) := by
  refine ⟨by decide, by decide, ?_⟩
  exact (Relation.ReflTransGen.refl.tail (Step.fetch initState "h")).tail
    (Step.err _ 0 "h/snippets.json" (ErrorV.http 404 "Not Found") (by decide))

/-- C2 amended: the PendingOperation is removed the instant the attempt
settles with success; when the attempt settles with failure the pending entry
is NOT removed (it stays in the table), and the failure path performs no write
to the ResourceCache. -/
theorem c2_amended_settlement_cleanup (s : CoordState) (op : Nat) (url : String)
    (m : Mapping) (e : ErrorV) :
    alookup url (settleSuccess s op url m).pending = none ∧
    (settleFailure s op e).pending = s.pending ∧
    (settleFailure s op e).cache = s.cache := by
  refine ⟨?_, rfl, rfl⟩
  show alookup url (s.pending.filter (fun p => p.1 ≠ url)) = none
  exact alookup_filterKey_self url s.pending

/-- C3: once a mapping is stored in the cache for a URL it is never replaced
along any further execution, and every subsequent resolve of that URL is a
pure cache hit: it performs no transition at all (in particular zero network
requests) and returns the identical mapping. -/
theorem c3_cache_write_once (s : CoordState) (hreach : Reachable s) (url : String)
    (m : Mapping) (hc : alookup url s.cache = some m)
    (s₂ : CoordState) (h : ReachFrom s s₂) :
    alookup url s₂.cache = some m ∧
    (∀ host, normalizeUrl host = url → fetchStart s₂ host = (s₂, FetchResult.cached m)) := by
  have h₂ := reach_cache_mono (reachable_inv hreach) h hc
  refine ⟨h₂, ?_⟩
  intro host hhost
  refine fetchStart_hit ?_
  rw [hhost]
  exact h₂

/-- C3 witness: after a successful resolution of "h" stores the mapping, a
later resolve of "h" is a pure cache hit returning the identical mapping. -/
theorem c3_cache_write_once_witness :
    (Reachable (settleSuccess (fetchStart initState "h").1 0 "h/snippets.json" [("k", "c")]) ∧
     alookup "h/snippets.json"
        (settleSuccess (fetchStart initState "h").1 0 "h/snippets.json" [("k", "c")]).cache =
       some [("k", "c")]) ∧
    alookup "h/snippets.json"
        (settleSuccess (fetchStart initState "h").1 0 "h/snippets.json" [("k", "c")]).cache =
      some [("k", "c")] ∧
    fetchStart (settleSuccess (fetchStart initState "h").1 0 "h/snippets.json" [("k", "c")]) "h" =
      (settleSuccess (fetchStart initState "h").1 0 "h/snippets.json" [("k", "c")],
       FetchResult.cached [("k", "c")]) := by
  have hreach : Reachable
      (settleSuccess (fetchStart initState "h").1 0 "h/snippets.json" [("k", "c")]) :=
    (Relation.ReflTransGen.refl.tail (Step.fetch initState "h")).tail
      (Step.ok _ 0 "h/snippets.json" [("k", "c")] (by decide))
  have hmain := c3_cache_write_once
    (settleSuccess (fetchStart initState "h").1 0 "h/snippets.json" [("k", "c")])
    hreach "h/snippets.json" [("k", "c")] (by decide) _ Relation.ReflTransGen.refl
  exact ⟨⟨hreach, by decide⟩, hmain.1, hmain.2 "h" (by decide)⟩

/-- C10: once a resolution attempt for a URL has failed, the pending entry
and the recorded rejection persist along every further execution, and every
later resolve of that URL (by any Viewer or Provider) performs no transition
— in particular it issues no network request — and merely joins the settled
operation, whose recorded outcome is the original rejection. -/
theorem c10_failed_host_never_retried (s : CoordState) (hreach : Reachable s)
    (url : String) (op : Nat) (e : ErrorV)
    (hp : alookup url s.pending = some op)
    (ho : alookup op s.settled = some (Except.error e))
    (s₂ : CoordState) (h : ReachFrom s s₂) :
    alookup url s₂.pending = some op ∧
    alookup op s₂.settled = some (Except.error e) ∧
    (∀ host, normalizeUrl host = url → fetchStart s₂ host = (s₂, FetchResult.joined op)) := by
  obtain ⟨h₁, h₂⟩ := reach_pending_settled (reachable_inv hreach) h hp ho
  refine ⟨h₁, h₂, ?_⟩
  intro host hhost
  have hinv₂ : CoordInv s₂ := reach_inv (reachable_inv hreach) h
  have hcache : alookup url s₂.cache = none :=
    hinv₂.pendingFreshCache url op (mem_of_alookup_some h₁)
  refine fetchStart_join ?_ ?_
  · rw [hhost]
    exact hcache
  · rw [hhost]
    exact h₁

/-- C10 witness: after the 404 failure of operation 0 for host "h", a later
resolve of "h" joins the dead operation and its recorded outcome is still the
original 404 rejection. -/
theorem c10_failed_host_never_retried_witness :
    (alookup "h/snippets.json"
        ((settleFailure (fetchStart initState "h").1 0 (ErrorV.http 404 "down")).pending) =
      some 0 ∧
     alookup 0
        ((settleFailure (fetchStart initState "h").1 0 (ErrorV.http 404 "down")).settled) =
      some (Except.error (ErrorV.http 404 "down"))) ∧
    fetchStart (settleFailure (fetchStart initState "h").1 0 (ErrorV.http 404 "down")) "h" =
      (settleFailure (fetchStart initState "h").1 0 (ErrorV.http 404 "down"),
       FetchResult.joined 0) := by
  have hreach : Reachable (settleFailure (fetchStart initState "h").1 0 (ErrorV.http 404 "down")) :=
    (Relation.ReflTransGen.refl.tail (Step.fetch initState "h")).tail
      (Step.err _ 0 "h/snippets.json" (ErrorV.http 404 "down") (by decide))
  have hmain := c10_failed_host_never_retried
    (settleFailure (fetchStart initState "h").1 0 (ErrorV.http 404 "down"))
    hreach "h/snippets.json" 0 (ErrorV.http 404 "down") (by decide) (by decide)
    _ Relation.ReflTransGen.refl
  exact ⟨⟨by decide, by decide⟩, hmain.2.2 "h" (by decide)⟩

/-! ### SnippetKeyResolver: the pure key-parsing and language-detection code
of `renderCode` (identical in both repository iterations). -/

/-- JavaScript `String.split` with a one-character separator, modelled on the
character list. The result is always nonempty; adjacent or edge separators
produce empty segments, exactly as in JavaScript. -/
def splitChar (c : Char) : List Char → List (List Char)
  | [] => [[]]
  | x :: xs =>
    match splitChar c xs with
    | [] => [[]]
    | h :: t => if x = c then [] :: h :: t else (x :: h) :: t

/-- The `filenameText` computed by `renderCode`:
`this.snippet.includes("@") ? this.snippet.split("@")[1] : this.snippet`.
Note `[1]` takes the SECOND segment of the split, not everything after the
first `@`. -/
def displayNameOf (key : String) : String :=
  if key.data.contains '@' then ⟨((splitChar '@' key.data).get? 1).getD []⟩
  else key

/-- The static `languageMap` table of the source, verbatim. -/
def languageMap : List (String × String) :=
  [("ts", "typescript"), ("tsx", "tsx"), ("js", "javascript"), ("jsx", "jsx"),
   ("json", "json"), ("html", "html"), ("css", "css"), ("scss", "scss"),
   ("py", "python"), ("rb", "ruby"), ("go", "go"), ("rs", "rust"),
   ("java", "java"), ("sh", "bash"), ("bash", "bash"), ("yml", "yaml"),
   ("yaml", "yaml"), ("md", "markdown"), ("sql", "sql"), ("c", "c"),
   ("h", "c"), ("cpp", "cpp"), ("cc", "cpp"), ("cxx", "cpp"), ("hpp", "cpp"),
   ("ino", "arduino")]

/-- The `ext` computed by `renderCode`:
`filenameText.split(".").pop()?.toLowerCase() || ""` — the lowercased LAST
segment of the dot-split (the whole name when it has no dot). `Char.toLower`
matches `toLowerCase` on the basic latin alphabet, the only characters the
table keys use. -/
def extOf (name : String) : String :=
  ⟨((splitChar '.' name.data).getLast?.getD []).map Char.toLower⟩

/-- The `language` computed by `renderCode`: `languageMap[ext] || "javascript"`. -/
def languageOf (name : String) : String :=
  (alookup (extOf name) languageMap).getD "javascript"

theorem splitChar_ne_nil (c : Char) (l : List Char) : splitChar c l ≠ [] := by
  induction l with
  | nil => simp [splitChar]
  | cons x xs ih =>
    cases h : splitChar c xs with
    | nil => exact absurd h ih
    | cons hd tl => by_cases hx : x = c <;> simp [splitChar, h, hx]

theorem splitChar_not_mem {c : Char} {l : List Char} (h : c ∉ l) : splitChar c l = [l] := by
  induction l with
  | nil => rfl
  | cons x xs ih =>
    have hx : x ≠ c := fun he => h (he ▸ List.mem_cons_self x xs)
    have hxs : c ∉ xs := fun hm => h (List.mem_cons_of_mem _ hm)
    simp [splitChar, ih hxs, hx]

theorem splitChar_append_sep {c : Char} {a : List Char} (h : c ∉ a) (rest : List Char) :
    splitChar c (a ++ c :: rest) = a :: splitChar c rest := by
  induction a with
  | nil =>
    cases h₂ : splitChar c rest with
    | nil => exact absurd h₂ (splitChar_ne_nil c rest)
    | cons hd tl => simp [splitChar, h₂]
  | cons x xs ih =>
    have hx : x ≠ c := fun he => h (he ▸ List.mem_cons_self x xs)
    have hxs : c ∉ xs := fun hm => h (List.mem_cons_of_mem _ hm)
    simp [splitChar, ih hxs, hx]

theorem two_le_length_splitChar_sep (c : Char) (xs b : List Char) :
    2 ≤ (splitChar c (xs ++ c :: b)).length := by
  induction xs with
  | nil =>
    cases h₂ : splitChar c b with
    | nil => exact absurd h₂ (splitChar_ne_nil c b)
    | cons hd tl => simp [splitChar, h₂]
  | cons x xs ih =>
    cases h₂ : splitChar c (xs ++ c :: b) with
    | nil => exact absurd h₂ (splitChar_ne_nil c _)
    | cons hd tl =>
      rw [h₂] at ih
      simp only [List.length_cons] at ih
      by_cases hx : x = c
      · simp [splitChar, h₂, hx]
      · simp [splitChar, h₂, hx]
        omega

/-- The last segment of a dot-split is the part after the LAST separator. -/
theorem splitChar_getLast_sep {c : Char} {b : List Char} (hb : c ∉ b) (a : List Char) :
    (splitChar c (a ++ c :: b)).getLast? = some b := by
  induction a with
  | nil =>
    have h₁ : splitChar c (([] : List Char) ++ c :: b) = [] :: splitChar c b :=
      splitChar_append_sep (by simp) b
    rw [h₁, splitChar_not_mem hb]
    rfl
  | cons x xs ih =>
    cases h₂ : splitChar c (xs ++ c :: b) with
    | nil => exact absurd h₂ (splitChar_ne_nil c _)
    | cons hd tl =>
      have hlen := two_le_length_splitChar_sep c xs b
      rw [h₂] at ih hlen
      cases tl with
      | nil => simp at hlen
      | cons t₂ ts =>
        rw [List.getLast?_cons_cons] at ih
        by_cases hx : x = c <;> simp [splitChar, h₂, hx, ih]

theorem toNat_ofNat_valid {n : Nat} (h : n.isValidChar) : (Char.ofNat n).toNat = n := by
  rw [Char.ofNat, dif_pos h]
  rfl

theorem toLower_eq (c : Char) :
    c.toLower = if c.toNat ≥ 65 ∧ c.toNat ≤ 90 then Char.ofNat (c.toNat + 32) else c := rfl

/-- Lowercasing maps no character onto the dot, and leaves the dot alone. -/
theorem toLower_dot_iff (c : Char) : c.toLower = '.' ↔ c = '.' := by
  rw [toLower_eq]
  split
  next h =>
    constructor
    · intro h₂
      have h₃ := congrArg Char.toNat h₂
      rw [toNat_ofNat_valid (Or.inl (by omega))] at h₃
      have h₄ : ('.' : Char).toNat = 46 := by decide
      omega
    · intro h₂
      subst h₂
      exact absurd h.1 (by decide)
  next h => exact Iff.rfl

theorem toLower_idem (c : Char) : c.toLower.toLower = c.toLower := by
  by_cases h : c.toNat ≥ 65 ∧ c.toNat ≤ 90
  · rw [toLower_eq c, if_pos h, toLower_eq, if_neg]
    intro h₂
    rw [toNat_ofNat_valid (Or.inl (by omega))] at h₂
    omega
  · rw [toLower_eq c, if_neg h, toLower_eq c, if_neg h]

/-- Splitting at the dot commutes with lowercasing. -/
theorem splitChar_map_toLower (l : List Char) :
    splitChar '.' (l.map Char.toLower) = (splitChar '.' l).map (List.map Char.toLower) := by
  induction l with
  | nil => rfl
  | cons x xs ih =>
    cases h₂ : splitChar '.' xs with
    | nil => exact absurd h₂ (splitChar_ne_nil _ _)
    | cons hd tl =>
      by_cases hx : x = '.'
      · subst hx
        have hdot : Char.toLower '.' = '.' := by decide
        simp [splitChar, ih, h₂, hdot]
      · have hx₂ : Char.toLower x ≠ '.' := fun h₃ => hx ((toLower_dot_iff x).mp h₃)
        simp [splitChar, ih, h₂, hx, hx₂]

/-- When the display name has a dot, the lookup key is the lowercased part
after the LAST dot. -/
theorem extOf_last_segment {b : List Char} (hb : '.' ∉ b) (a : List Char) :
    extOf ⟨a ++ '.' :: b⟩ = ⟨b.map Char.toLower⟩ := by
  unfold extOf
  rw [show (⟨a ++ '.' :: b⟩ : String).data = a ++ '.' :: b from rfl,
      splitChar_getLast_sep hb a]
  rfl

/-- When the display name has no dot, the lookup key is the whole lowercased
name (NOT an absent extension). -/
theorem extOf_no_dot {l : List Char} (hl : '.' ∉ l) :
    extOf ⟨l⟩ = ⟨l.map Char.toLower⟩ := by
  unfold extOf
  rw [show (⟨l⟩ : String).data = l from rfl, splitChar_not_mem hl]
  rfl

theorem extOf_map_toLower (l : List Char) :
    extOf ⟨l.map Char.toLower⟩ = extOf ⟨l⟩ := by
  unfold extOf
  rw [show (⟨l.map Char.toLower⟩ : String).data = l.map Char.toLower from rfl,
      show (⟨l⟩ : String).data = l from rfl,
      splitChar_map_toLower, List.getLast?_map]
  cases h : (splitChar '.' l).getLast? with
  | none => rfl
  | some seg =>
    simp only [Option.map_some', Option.getD_some]
    rw [List.map_map]
    exact congrArg String.mk (List.map_congr_left (fun x _ => toLower_idem x))

/-- The language tag only depends on the lowercase image of the name. -/
theorem languageOf_map_toLower (l : List Char) :
    languageOf ⟨l.map Char.toLower⟩ = languageOf ⟨l⟩ := by
  unfold languageOf
  rw [extOf_map_toLower]

theorem displayNameOf_data (l : List Char) :
    displayNameOf ⟨l⟩ =
      if l.contains '@' then ⟨((splitChar '@' l).get? 1).getD []⟩ else ⟨l⟩ := rfl

/-! ### Claims C5 and C9 -/

/-- C5 counterexample: for the key "a@b@c.ts" (more than one `@`), the code
takes `split("@")[1]`, the SECOND segment "b" — not everything after the
first `@`, which would be "b@c.ts" as the claim states. -/
theorem c5_counterexample :
    displayNameOf "a@b@c.ts" = "b" ∧ displayNameOf "a@b@c.ts" ≠ "b@c.ts" :=
  ⟨by decide, by decide⟩

/-- C5 amended: for a key containing `@`, the displayName is the SECOND
`@`-separated segment — the substring strictly between the first and second
`@` when a second one exists, and everything after the `@` only when the key
contains exactly one `@`; a key without `@` is its own displayName. -/
theorem c5_amended_display_name :
    (∀ a b : List Char, '@' ∉ a → '@' ∉ b →
        displayNameOf ⟨a ++ '@' :: b⟩ = ⟨b⟩) ∧
    (∀ a b rest : List Char, '@' ∉ a → '@' ∉ b →
        displayNameOf ⟨a ++ '@' :: (b ++ '@' :: rest)⟩ = ⟨b⟩) ∧
    (∀ key : String, '@' ∉ key.data → displayNameOf key = key) := by
  refine ⟨?_, ?_, ?_⟩
  · intro a b ha hb
    have hcont : (a ++ '@' :: b).contains '@' = true :=
      List.elem_eq_true_of_mem (by simp)
    have h₁ : splitChar '@' (a ++ '@' :: b) = a :: splitChar '@' b :=
      splitChar_append_sep ha b
    rw [splitChar_not_mem hb] at h₁
    rw [displayNameOf_data, if_pos hcont, h₁]
    rfl
  · intro a b rest ha hb
    have hcont : (a ++ '@' :: (b ++ '@' :: rest)).contains '@' = true :=
      List.elem_eq_true_of_mem (by simp)
    have h₁ : splitChar '@' (a ++ '@' :: (b ++ '@' :: rest)) =
        a :: splitChar '@' (b ++ '@' :: rest) :=
      splitChar_append_sep ha (b ++ '@' :: rest)
    rw [splitChar_append_sep hb rest] at h₁
    rw [displayNameOf_data, if_pos hcont, h₁]
    rfl
  · intro key hk
    have hcont : ¬ key.data.contains '@' = true :=
      fun h => hk (List.mem_of_elem_eq_true h)
    unfold displayNameOf
    rw [if_neg hcont]

/-- C9 counterexample: the display name "ts" has no `.` at all, so by the
claim its extension is absent and the language tag should be the default;
but the code looks up the whole name and returns "typescript". -/
theorem c9_counterexample :
    "ts".data.contains '.' = false ∧ languageOf "ts" = "typescript" ∧
    ("typescript" : String) ≠ "javascript" :=
  ⟨by decide, by decide, by decide⟩

/-- C9 amended: the lookup key is the lowercased LAST dot-separated segment
of the displayName — the part after the last `.` when the name has one, and
the WHOLE lowercased name when it has none; the lookup is case-insensitive
(the tag depends only on the lowercase image of the name); an unmapped key
falls back to the fixed default tag "javascript". -/
theorem c9_amended_language_lookup :
    (∀ a b : List Char, '.' ∉ b → extOf ⟨a ++ '.' :: b⟩ = ⟨b.map Char.toLower⟩) ∧
    (∀ l : List Char, '.' ∉ l → extOf ⟨l⟩ = ⟨l.map Char.toLower⟩) ∧
    (∀ l₁ l₂ : List Char, l₁.map Char.toLower = l₂.map Char.toLower →
        languageOf ⟨l₁⟩ = languageOf ⟨l₂⟩) ∧
    (∀ name : String, alookup (extOf name) languageMap = none →
        languageOf name = "javascript") ∧
    languageOf "path/to/File.TS" = "typescript" ∧
    languageOf "just-a-name" = "javascript" := by
  refine ⟨fun a b hb => extOf_last_segment hb a, fun l hl => extOf_no_dot hl,
    ?_, ?_, by decide, by decide⟩
  · intro l₁ l₂ h
    calc languageOf ⟨l₁⟩ = languageOf ⟨l₁.map Char.toLower⟩ :=
          (languageOf_map_toLower l₁).symm
      _ = languageOf ⟨l₂.map Char.toLower⟩ := by rw [h]
      _ = languageOf ⟨l₂⟩ := languageOf_map_toLower l₂
  · intro name h
    unfold languageOf
    rw [h]
    rfl

/-! ### The Viewer state machine pieces of `loadSnippet` -/

/-- The display state of one Viewer
(Idle / Resolving / Ready / Failed of the specification). `readyInherited`
is the render path entered when the property read on the parsed mapping hits
a value inherited from `Object.prototype` instead of an own string property:
`renderCode` then runs on that inherited (non-snippet) value, whose string
coercion is host-engine-specific and not modelled further. -/
inductive ViewerState where
  | idle
  | resolving
  | ready (code filename language : String)
  | readyInherited (filename language : String)
  | failed (msg : String)
deriving DecidableEq

/-- The property names every object returned by `JSON.parse` inherits from
`Object.prototype`; reading one of them yields the inherited function or
accessor value, which is not `undefined`. -/
def objectProtoProps : List String :=
  ["constructor", "hasOwnProperty", "isPrototypeOf", "propertyIsEnumerable",
   "toLocaleString", "toString", "valueOf", "__defineGetter__",
   "__defineSetter__", "__lookupGetter__", "__lookupSetter__", "__proto__"]

/-- What the property read `snippetData[snippet]` evaluates to: an own
string property parsed from the JSON, or a value inherited from
`Object.prototype`. -/
inductive JsProp where
  | ownStr (s : String)
  | inherited
deriving DecidableEq

/-- JavaScript property access on a `JSON.parse` object: own properties
first, then the `Object.prototype` chain, `undefined` (`none`) otherwise. -/
def jsIndex (key : String) (data : Mapping) : Option JsProp :=
  match alookup key data with
  | some s => some (JsProp.ownStr s)
  | none => if key ∈ objectProtoProps then some JsProp.inherited else none

/-- The continuation of `loadSnippet` once its `fetchSnippets` promise has
settled with `r`: on failure the catch handler renders
`Failed to load snippet: $\x7berror.message\x7d`; on success
`const code = snippetData[snippet]` is read as a JavaScript property access
(`jsIndex`), and only a result of `undefined` renders
`Snippet "$\x7bsnippet\x7d" not found` — an own property renders its code
with the display name and language computed in `renderCode`, and a property
inherited from `Object.prototype` also passes the `code === undefined` check
and enters `renderCode` with the inherited value. -/
def viewerResult (snippet : String) (r : Except ErrorV Mapping) : ViewerState :=
  match r with
  | .error e => .failed ("Failed to load snippet: " ++ e.message)
  | .ok data =>
    match jsIndex snippet data with
    | some (.ownStr code) =>
        .ready code (displayNameOf snippet) (languageOf (displayNameOf snippet))
    | some .inherited =>
        .readyInherited (displayNameOf snippet) (languageOf (displayNameOf snippet))
    | none => .failed ("Snippet \"" ++ snippet ++ "\" not found")

/-- What the synchronous prefix of `loadSnippet` does: either it never
touches the coordinator (`noResolve`, the missing-attribute early return,
which renders the error and issues no cache lookup, no pending join and no
network request), or it enters Resolving and runs `fetchSnippets`. -/
inductive LoadAction where
  | noResolve (st : ViewerState)
  | resolve (s₂ : CoordState) (r : FetchResult)
deriving DecidableEq

/-- The synchronous prefix of `SnippetViewer.loadSnippet`: the
`if (!snippet || !snippetHost)` guard (absent attributes read as `""`), then
`renderLoading()` and the call to `fetchSnippets(snippetHost)`. -/
def viewerLoadStart (s : CoordState) (snippet host : String) : LoadAction :=
  if snippet = "" ∨ host = "" then
    .noResolve (.failed "Missing snippet or snippet-host attribute")
  else
    .resolve (fetchStart s host).1 (fetchStart s host).2

/-- Distinct values under one key cannot both sit in a table whose keys are
Nodup. -/
theorem nodup_key_unique {κ α : Type} {l : List (κ × α)} (h : (l.map Prod.fst).Nodup)
    {k : κ} {v₁ v₂ : α} (h₁ : (k, v₁) ∈ l) (h₂ : (k, v₂) ∈ l) : v₁ = v₂ := by
  induction l with
  | nil => simp at h₁
  | cons p t ih =>
    obtain ⟨k₂, v₃⟩ := p
    simp only [List.map_cons, List.nodup_cons] at h
    rcases List.mem_cons.mp h₁ with he₁ | ht₁ <;> rcases List.mem_cons.mp h₂ with he₂ | ht₂
    · obtain ⟨hk₁, hv₁⟩ := Prod.mk.injEq .. ▸ he₁
      obtain ⟨hk₂, hv₂⟩ := Prod.mk.injEq .. ▸ he₂
      rw [hv₁, hv₂]
    · obtain ⟨hk₁, hv₁⟩ := Prod.mk.injEq .. ▸ he₁
      subst hk₁
      exact absurd (List.mem_map_of_mem Prod.fst ht₂) h.1
    · obtain ⟨hk₂, hv₂⟩ := Prod.mk.injEq .. ▸ he₂
      subst hk₂
      exact absurd (List.mem_map_of_mem Prod.fst ht₁) h.1
    · exact ih h.2 ht₁ ht₂

/-- A settled outcome persists along every execution. -/
theorem reach_settled_mono {s s₂ : CoordState} (hs : CoordInv s) (h : ReachFrom s s₂)
    {op : Nat} {o : Except ErrorV Mapping} (ho : alookup op s.settled = some o) :
    alookup op s₂.settled = some o := by
  induction h with
  | refl => exact ho
  | tail h₁ h₂ ih => exact step_settled_mono (reach_inv hs h₁) h₂ ih

/-! ### Claims C7, C8, C4 -/

/-- C7 counterexample: with the snippet attribute absent, `loadSnippet`
fails with the message "Missing snippet or snippet-host attribute" — not the
message "Missing snippet or snippet-host" the claim states. -/
theorem c7_counterexample :
    viewerLoadStart initState "" "h" =
      LoadAction.noResolve (ViewerState.failed "Missing snippet or snippet-host attribute") ∧
    viewerLoadStart initState "" "h" ≠
      LoadAction.noResolve (ViewerState.failed "Missing snippet or snippet-host") :=
  ⟨by decide, by decide⟩

/-- C7 amended: whenever the effective host or the snippet key is absent,
`loadSnippet` transitions directly to
Failed("Missing snippet or snippet-host attribute") without issuing any
resolution — no cache lookup, no pending join, no network request (the
`noResolve` action never invokes the coordinator). -/
theorem c7_amended_missing_config (s : CoordState) (snippet host : String)
    (h : snippet = "" ∨ host = "") :
    viewerLoadStart s snippet host =
      LoadAction.noResolve (ViewerState.failed "Missing snippet or snippet-host attribute") := by
  unfold viewerLoadStart
  rw [if_pos h]

/-- C7 witness: a viewer with no snippet key and host "h". -/
theorem c7_amended_missing_config_witness :
    (("" : String) = "" ∨ ("h" : String) = "") ∧
    viewerLoadStart initState "" "h" =
      LoadAction.noResolve (ViewerState.failed "Missing snippet or snippet-host attribute") :=
  ⟨Or.inl rfl, c7_amended_missing_config initState "" "h" (Or.inl rfl)⟩

/-- C8 counterexample: the key "toString" is absent from the fetched mapping
`\x7b"a@a.ts": "code"\x7d`, yet `snippetData["toString"]` evaluates to the
function inherited from `Object.prototype`, so `code === undefined` is false
and `loadSnippet` proceeds down the render path — the Viewer does not enter
Failed("Snippet \"toString\" not found") as the claim states, and a render
state IS entered for that load. -/
theorem c8_counterexample :
    alookup "toString" ([("a@a.ts", "code")] : Mapping) = none ∧
    viewerResult "toString" (Except.ok ([("a@a.ts", "code")] : Mapping)) =
      ViewerState.readyInherited (displayNameOf "toString")
        (languageOf (displayNameOf "toString")) ∧
    viewerResult "toString" (Except.ok ([("a@a.ts", "code")] : Mapping)) ≠
      ViewerState.failed ("Snippet \"" ++ "toString" ++ "\" not found") :=
  ⟨by decide, by decide, by decide⟩

/-- C8 amended: when the resolution succeeds and the configured key is
absent from the returned mapping AND is not one of the property names a
JSON object inherits from `Object.prototype`, the Viewer fails with exactly
`Snippet "<key>" not found` and enters no render state for that load. -/
theorem c8_amended_snippet_not_found (key : String) (data : Mapping)
    (h : alookup key data = none) (hp : key ∉ objectProtoProps) :
    viewerResult key (Except.ok data) =
      ViewerState.failed ("Snippet \"" ++ key ++ "\" not found") ∧
    (∀ code filename language,
        viewerResult key (Except.ok data) ≠ ViewerState.ready code filename language) ∧
    (∀ filename language,
        viewerResult key (Except.ok data) ≠ ViewerState.readyInherited filename language) := by
  have hidx : jsIndex key data = none := by
    unfold jsIndex
    rw [h]
    dsimp only
    exact if_neg hp
  refine ⟨?_, ?_, ?_⟩
  · unfold viewerResult
    dsimp only
    rw [hidx]
  · intro code filename language
    unfold viewerResult
    dsimp only
    rw [hidx]
    exact fun hcontra => ViewerState.noConfusion hcontra
  · intro filename language
    unfold viewerResult
    dsimp only
    rw [hidx]
    exact fun hcontra => ViewerState.noConfusion hcontra

/-- C8 witness: key "b@b.ts" (absent and not an inherited property name)
against the mapping containing only "a@a.ts". -/
theorem c8_amended_snippet_not_found_witness :
    (alookup "b@b.ts" ([("a@a.ts", "code")] : Mapping) = none ∧
     "b@b.ts" ∉ objectProtoProps) ∧
    (viewerResult "b@b.ts" (Except.ok ([("a@a.ts", "code")] : Mapping)) =
      ViewerState.failed ("Snippet \"" ++ "b@b.ts" ++ "\" not found") ∧
     (∀ code filename language,
        viewerResult "b@b.ts" (Except.ok ([("a@a.ts", "code")] : Mapping)) ≠
          ViewerState.ready code filename language) ∧
     (∀ filename language,
        viewerResult "b@b.ts" (Except.ok ([("a@a.ts", "code")] : Mapping)) ≠
          ViewerState.readyInherited filename language)) :=
  ⟨⟨by decide, by decide⟩,
   c8_amended_snippet_not_found "b@b.ts" [("a@a.ts", "code")] (by decide) (by decide)⟩

/-- C4: a settled failure is recorded once (any two settled records for the
same operation agree, so every caller joined on that PendingOperation awaits
the one shared promise and observes the identical rejection), the record
persists along every execution, and the Viewer turns an HTTP failure into
`Failed` whose message contains the status code as a substring. -/
theorem c4_identical_failure_propagation (s : CoordState) (hreach : Reachable s)
    (op : Nat) (e : ErrorV) (ho : alookup op s.settled = some (Except.error e)) :
    (∀ o₂, (op, o₂) ∈ s.settled → o₂ = Except.error e) ∧
    (∀ s₂, ReachFrom s s₂ → alookup op s₂.settled = some (Except.error e)) ∧
    (∀ key status statusText, e = ErrorV.http status statusText →
        viewerResult key (Except.error e) =
          ViewerState.failed ("Failed to load snippet: " ++ e.message) ∧
        ∃ pre post : List Char,
          ("Failed to load snippet: " ++ e.message).data =
            pre ++ (toString status).data ++ post) := by
  have hinv := reachable_inv hreach
  refine ⟨?_, ?_, ?_⟩
  · intro o₂ hmem
    exact nodup_key_unique hinv.settledNodup hmem (mem_of_alookup_some ho)
  · intro s₂ h₂
    exact reach_settled_mono hinv h₂ ho
  · intro key status statusText he
    subst he
    refine ⟨rfl, "Failed to load snippet: HTTP ".data, (": " ++ statusText).data, ?_⟩
    show ("Failed to load snippet: " ++
        ("HTTP " ++ toString status ++ ": " ++ statusText)).data = _
    simp only [String.data_append, List.append_assoc]
    rw [← List.append_assoc "Failed to load snippet: ".data "HTTP ".data]
    rw [show "Failed to load snippet: ".data ++ "HTTP ".data =
        "Failed to load snippet: HTTP ".data from by decide]

/-- C4 witness: operation 0 for host "g" settles with HTTP 404; the record is
unique and persistent and the viewer message contains "404". -/
theorem c4_identical_failure_propagation_witness :
    (alookup 0 ((settleFailure (fetchStart initState "g").1 0
        (ErrorV.http 404 "Not Found")).settled) =
      some (Except.error (ErrorV.http 404 "Not Found"))) ∧
    ((∀ o₂, (0, o₂) ∈ (settleFailure (fetchStart initState "g").1 0
        (ErrorV.http 404 "Not Found")).settled →
        o₂ = Except.error (ErrorV.http 404 "Not Found")) ∧
     (∀ s₂, ReachFrom (settleFailure (fetchStart initState "g").1 0
        (ErrorV.http 404 "Not Found")) s₂ →
        alookup 0 s₂.settled = some (Except.error (ErrorV.http 404 "Not Found"))) ∧
     (∀ key status statusText,
        ErrorV.http 404 "Not Found" = ErrorV.http status statusText →
        viewerResult key (Except.error (ErrorV.http 404 "Not Found")) =
          ViewerState.failed
            ("Failed to load snippet: " ++ (ErrorV.http 404 "Not Found").message) ∧
        ∃ pre post : List Char,
          ("Failed to load snippet: " ++ (ErrorV.http 404 "Not Found").message).data =
            pre ++ (toString status).data ++ post)) :=
  ⟨by decide,
   c4_identical_failure_propagation
     (settleFailure (fetchStart initState "g").1 0 (ErrorV.http 404 "Not Found"))
     ((Relation.ReflTransGen.refl.tail (Step.fetch initState "g")).tail
       (Step.err _ 0 "g/snippets.json" (ErrorV.http 404 "Not Found") (by decide)))
     0 (ErrorV.http 404 "Not Found") (by decide)⟩

/-! ### The Provider: `SnippetProvider.prefetch` and `notifyChildren` -/

/-- Observable events of one prefetch cycle, in program order. -/
inductive PEvent where
  | requested (url : String)
  | settled (r : Except ErrorV Mapping)
  | broadcast (snippets : Option Mapping) (error : Option String)
deriving DecidableEq

/-- The Provider instance state `\x7b _snippets, _loading, _error \x7d`. -/
structure ProviderState where
  snippets : Option Mapping
  loading : Bool
  error : Option String
deriving DecidableEq

/-- A descendant snippet-viewer element as `notifyChildren` sees it: its
snippet-host attribute (absent or set) and its snippet key. -/
structure ChildViewer where
  hostAttr : Option String
  snippet : String
deriving DecidableEq

/-- The host-assignment loop of `notifyChildren`: for every descendant
viewer, `if (!viewer.hasAttribute("snippet-host"))
viewer.setAttribute("snippet-host", this.snippetHost)`. -/
def assignHosts (providerHost : String) (viewers : List ChildViewer) : List ChildViewer :=
  viewers.map (fun v => if v.hostAttr = none then { v with hostAttr := some providerHost } else v)

/-- One `SnippetProvider.prefetch` cycle. `outcome` is the settlement the
cycle observes when it has to await a promise: the joined pending promise on
the join path, or the fresh fetch promise on the fetch path (the settlement
of a joined promise mutates the shared stores in its own transition, not in
this cycle). The four paths of the source: missing host (error fields set, NO
broadcast), cache hit, pending join with the try/catch around the await, and
fresh fetch with the same try/catch. The event list records program order:
the request when one is issued, the settlement the cycle observes, and the
`notifyChildren` broadcast carrying `\x7b snippets: this._snippets, error:
this._error \x7d`. -/
def prefetch (s : CoordState) (p : ProviderState) (host : String)
    (outcome : Except ErrorV Mapping) : CoordState × ProviderState × List PEvent :=
  if host = "" then
    (s, { snippets := p.snippets, loading := false,
          error := some "Missing snippet-host attribute on provider" }, [])
  else
    match alookup (normalizeUrl host) s.cache with
    | some m =>
      (s, { snippets := some m, loading := false, error := none },
       [.settled (.ok m), .broadcast (some m) none])
    | none =>
      match alookup (normalizeUrl host) s.pending with
      | some _ =>
        match outcome with
        | .ok m =>
          (s, { snippets := some m, loading := false, error := none },
           [.settled (.ok m), .broadcast (some m) none])
        | .error e =>
          (s, { snippets := p.snippets, loading := false, error := some e.message },
           [.settled (.error e), .broadcast p.snippets (some e.message)])
      | none =>
        match outcome with
        | .ok m =>
          (settleSuccess (fetchStart s host).1 s.nextOp (normalizeUrl host) m,
           { snippets := some m, loading := false, error := none },
           [.requested (normalizeUrl host), .settled (.ok m), .broadcast (some m) none])
        | .error e =>
          (settleFailure (fetchStart s host).1 s.nextOp e,
           { snippets := p.snippets, loading := false, error := some e.message },
           [.requested (normalizeUrl host), .settled (.error e),
            .broadcast p.snippets (some e.message)])

/-- C6: every prefetch cycle that runs a resolution (host present) performs
the broadcast exactly once — it is the last event, no broadcast precedes it,
and the observed settlement precedes it — and the broadcast-time host
assignment gives the Provider's host to exactly the descendant viewers with
no host attribute of their own, leaving every other viewer unchanged. -/
theorem c6_broadcast_once_after_settlement (s : CoordState) (p : ProviderState)
    (host : String) (outcome : Except ErrorV Mapping) (hhost : host ≠ "") :
    (∃ pre snips err,
        (prefetch s p host outcome).2.2 = pre ++ [PEvent.broadcast snips err] ∧
        (∀ snips₂ err₂, PEvent.broadcast snips₂ err₂ ∉ pre) ∧
        (∃ r, PEvent.settled r ∈ pre)) ∧
    (∀ (viewers : List ChildViewer) (i : Nat) (v : ChildViewer),
        viewers[i]? = some v →
        (assignHosts host viewers)[i]? =
          some (if v.hostAttr = none then { v with hostAttr := some host } else v)) := by
  constructor
  · unfold prefetch
    rw [if_neg hhost]
    cases hc : alookup (normalizeUrl host) s.cache with
    | some m =>
      exact ⟨[PEvent.settled (.ok m)], some m, none, rfl, by simp, ⟨Except.ok m, by simp⟩⟩
    | none =>
      cases hp : alookup (normalizeUrl host) s.pending with
      | some op =>
        cases outcome with
        | ok m =>
          exact ⟨[PEvent.settled (.ok m)], some m, none, rfl, by simp, ⟨Except.ok m, by simp⟩⟩
        | error e =>
          exact ⟨[PEvent.settled (.error e)], p.snippets, some e.message, rfl, by simp,
            ⟨Except.error e, by simp⟩⟩
      | none =>
        cases outcome with
        | ok m =>
          exact ⟨[PEvent.requested (normalizeUrl host), PEvent.settled (.ok m)], some m, none,
            rfl, by simp, ⟨Except.ok m, by simp⟩⟩
        | error e =>
          exact ⟨[PEvent.requested (normalizeUrl host), PEvent.settled (.error e)],
            p.snippets, some e.message, rfl, by simp, ⟨Except.error e, by simp⟩⟩
  · intro viewers i v h
    unfold assignHosts
    rw [List.getElem?_map, h]
    rfl

/-- C6 witness: a provider with host "h", a fresh successful fetch, and two
children, one with its own host and one without. -/
theorem c6_broadcast_once_after_settlement_witness :
    (("h" : String) ≠ "") ∧
    ((∃ pre snips err,
        (prefetch initState ⟨none, true, none⟩ "h"
            (Except.ok [("k", "c")])).2.2 = pre ++ [PEvent.broadcast snips err] ∧
        (∀ snips₂ err₂, PEvent.broadcast snips₂ err₂ ∉ pre) ∧
        (∃ r, PEvent.settled r ∈ pre)) ∧
     (∀ (viewers : List ChildViewer) (i : Nat) (v : ChildViewer),
        viewers[i]? = some v →
        (assignHosts "h" viewers)[i]? =
          some (if v.hostAttr = none then { v with hostAttr := some "h" } else v))) :=
  ⟨by decide,
   c6_broadcast_once_after_settlement initState ⟨none, true, none⟩ "h"
     (Except.ok [("k", "c")]) (by decide)⟩
